import Mathlib

/-!
Shallow embedding of `src/spi_25lc512x.c`, a BeagleBone Black test program
for a Microchip 25LC512 SPI EEPROM.  The program identifies the device,
erases the whole chip, verifies page 0 byte 0 reads 0xFF, writes an
incrementing 128-byte pattern to each of the 512 pages, reads every page
back (logging miscompares), and powers the device down.

The transport (libsoc SPI) is modelled by a trace of `Action`s: each
`libsoc_spi_write` / `libsoc_spi_rw` call becomes one trace element carrying
the bytes the code placed in the transmit buffer, and each `nanosleep`
becomes a `sleep` element.  Bytes the hardware returns (contents of the
global `rx` buffer after a transfer) are supplied by an environment `Env`.
Busy-wait loops, unbounded in the C source, take explicit fuel and return
`none` when the fuel is exhausted (i.e. when the C loop would still be
spinning).
-/

set_option maxRecDepth 8000

namespace Spi25LC512

/-! Constants from the `#define` block of the source. -/

def EEPROM_DEVICE_ID : Nat := 0x29
def EEPROM_SIZE : Nat := 524288 / 8
def EEPROM_PAGE_SIZE : Nat := 128
def EEPROM_NUM_PAGES : Nat := EEPROM_SIZE / EEPROM_PAGE_SIZE
def EEPROM_WRITE_DELAY : Nat := 3300000
def EEPROM_ERASE_DELAY : Nat := 6800000

def WREN : Nat := 0x06
def WRITE : Nat := 0x02
def READ : Nat := 0x03
def CE : Nat := 0xc7
def RDSR : Nat := 0x05
def RDID : Nat := 0xab
def DPD : Nat := 0xb9

def EXIT_SUCCESS : Nat := 0
def EXIT_FAILURE : Nat := 1

/-- One observable action of the program.
`spiWrite bs` is `libsoc_spi_write(spi_dev, tx, bs.length)` with `bs` the
transmitted bytes; `spiRW bs n` is `libsoc_spi_rw(spi_dev, tx, rx, n)` with
`bs` the transmit bytes the code wrote into `tx` for this call; `sleep ns`
is `nanosleep` of `ns` nanoseconds. -/
inductive Action where
  | spiWrite (txBytes : List Nat)
  | spiRW (txBytes : List Nat) (len : Nat)
  | sleep (ns : Nat)
deriving DecidableEq

/-- The transfer issued by `read_status_register`: `tx[0]=RDSR; tx[1]=0;`
then a 2-byte full-duplex exchange. The status byte returned is `rx[1]`,
supplied by the environment. -/
def pollCall : Action := Action.spiRW [RDSR, 0] 2

/-- `page_address = page_address * EEPROM_PAGE_SIZE;` where `page_address`
is a `uint16_t`: the product is truncated mod 2^16. -/
def pageOffset16 (page_address : Nat) : Nat :=
  (page_address * EEPROM_PAGE_SIZE) % 65536

/-- `tx[1] = (page_address >> 8);` — high address byte. -/
def addrHi (page_address : Nat) : Nat := pageOffset16 page_address / 256

/-- `tx[2] = page_address;` — the 16-bit offset truncated to `uint8_t`. -/
def addrLo (page_address : Nat) : Nat := pageOffset16 page_address % 256

/-- The `do { status = read_status_register(spi_dev); ... } while (status & 0x1);`
loop shared by `erase_device` and `write_page`.  `statusSeq k` is the status
byte the device answers to the k-th poll of this loop; `fuel` bounds the
number of polls.  Returns the final status byte and the trace of polls. -/
def busy_poll (statusSeq : Nat → Nat) : Nat → Nat → Option (Nat × List Action)
  | _, 0 => none
  | k, fuel + 1 =>
    let s := statusSeq k
    if s &&& 1 = 0 then some (s, [pollCall])
    else
      match busy_poll statusSeq (k + 1) fuel with
      | none => none
      | some (sFinal, tr) => some (sFinal, pollCall :: tr)

/-- `erase_device`: write-enable, chip-erase opcode, one fixed sleep, then
the busy-poll loop.  Returns `EXIT_SUCCESS` and the trace. -/
def erase_device (statusSeq : Nat → Nat) (fuel : Nat) :
    Option (Nat × List Action) :=
  match busy_poll statusSeq 0 fuel with
  | none => none
  | some (_, polls) =>
      some (EXIT_SUCCESS,
        Action.spiWrite [WREN] :: Action.spiWrite [CE] ::
          Action.sleep EEPROM_ERASE_DELAY :: polls)

/-- The payload bytes the `for (i=0; i<len; i++) tx[(i+3)] = data[i];` loop
places after opcode and address. -/
def payloadBytes (data : List Nat) (len : Nat) : List Nat :=
  (List.range len).map (fun i => data.getD i 0)

/-- The frame `write_page` transmits: `WRITE`, two big-endian address bytes,
then `len` payload bytes (total `len + 3` bytes). -/
def writeFrame (page_address : Nat) (data : List Nat) (len : Nat) : List Nat :=
  WRITE :: addrHi page_address :: addrLo page_address :: payloadBytes data len

/-- `write_page`: rejects `len > EEPROM_PAGE_SIZE` before touching the bus;
otherwise write-enable, the write frame, a fixed sleep, and the busy-poll
loop. -/
def write_page (page_address : Nat) (data : List Nat) (len : Nat)
    (statusSeq : Nat → Nat) (fuel : Nat) : Option (Nat × List Action) :=
  if EEPROM_PAGE_SIZE < len then some (EXIT_FAILURE, [])
  else
    match busy_poll statusSeq 0 fuel with
    | none => none
    | some (_, polls) =>
        some (EXIT_SUCCESS,
          Action.spiWrite [WREN] ::
            Action.spiWrite (writeFrame page_address data len) ::
            Action.sleep EEPROM_WRITE_DELAY :: polls)

/-- Size of the global receive buffer `static uint8_t rx[EEPROM_PAGE_SIZE+3]`. -/
def rxBufSize : Nat := EEPROM_PAGE_SIZE + 3

/-- The receive buffer contents after a transfer, as a list of exactly
`rxBufSize` bytes determined by an environment function. -/
def rxBuf (f : Nat → Nat) : List Nat := (List.range rxBufSize).map f

/-- The copy loop of `read_page`: `for (i=0; i<len; i++) data[i] = rx[(i+3)];`
with `Option`-valued indexing so that an out-of-bounds access of the `rx`
buffer is observable as `none`. `i` is the loop counter, the second argument
the remaining iteration count. -/
def copy_loop (rx : List Nat) : Nat → Nat → Option (List Nat)
  | _, 0 => some []
  | i, rem + 1 =>
    match rx[i + 3]? with
    | none => none
    | some b =>
      match copy_loop rx (i + 1) rem with
      | none => none
      | some rest => some (b :: rest)

/-- The whole copy phase of `read_page` for a given `len`. -/
def copyFromRx (rx : List Nat) (len : Nat) : Option (List Nat) :=
  copy_loop rx 0 len

/-- `read_page`: frames `READ` plus the big-endian address, performs one
full-duplex transfer of `len + 3` bytes, then copies `len` bytes out of the
receive buffer.  First component: the bytes stored into `data` (or `none` on
an out-of-bounds buffer access); second: the transport trace. -/
def read_page (page_address : Nat) (len : Nat) (rx : List Nat) :
    Option (List Nat) × List Action :=
  (copyFromRx rx len,
   [Action.spiRW [READ, addrHi page_address, addrLo page_address] (len + 3)])

/-- Environment: the bytes the device answers during one run of `main`.
`sigByte` is `rx[3]` after the RDID transfer; `eraseStatus` the status bytes
during the erase busy-poll; `writeStatus p` the status bytes during the
busy-poll of the write of page `p`; `checkRx` the receive buffer contents
after the post-erase verification read; `readRx p` the receive buffer
contents after the readback of page `p`. -/
structure Env where
  sigByte : Nat
  eraseStatus : Nat → Nat
  writeStatus : Nat → Nat → Nat
  checkRx : Nat → Nat
  readRx : Nat → Nat → Nat

/-- `data[i] = i` for `i` in `[0, 128)` — the pattern `main` writes. -/
def mainData : List Nat := List.range EEPROM_PAGE_SIZE

/-- The `for (page = 0; page < EEPROM_NUM_PAGES; page++) write_page(...)`
loop over a list of page indices. -/
def write_all_aux (env : Env) (fuel : Nat) : List Nat → Option (List Action)
  | [] => some []
  | p :: ps =>
    match write_page p mainData EEPROM_PAGE_SIZE (env.writeStatus p) fuel with
    | none => none
    | some (_, tr) =>
      match write_all_aux env fuel ps with
      | none => none
      | some rest => some (tr ++ rest)

def write_all (env : Env) (fuel : Nat) : Option (List Action) :=
  write_all_aux env fuel (List.range EEPROM_NUM_PAGES)

/-- The readback loop: reads every page; the per-byte comparison only
prints, so it contributes nothing but the transfers. -/
def read_all_aux (env : Env) : List Nat → List Action
  | [] => []
  | p :: ps =>
    (read_page p EEPROM_PAGE_SIZE (rxBuf (env.readRx p))).2 ++ read_all_aux env ps

def read_all (env : Env) : List Action :=
  read_all_aux env (List.range EEPROM_NUM_PAGES)

/-- The RDID transfer of `release_pwrdwn_read_sig`: `tx[0]=RDID`, three zero
bytes, 4-byte exchange; the signature byte returned is `rx[3]`. -/
def rdidCall : Action := Action.spiRW [RDID, 0, 0, 0] 4

/-- `main` from the successful `libsoc_spi_init` onward: reads the device
signature; on mismatch powers down and fails.  Otherwise erases, verifies
page 0 byte 0 is 0xFF (failing without power-down otherwise), writes all
pages, reads them back, powers down, and succeeds.  Returns the exit status
and the trace; `none` iff some busy-poll exhausts its fuel. -/
def main_run (env : Env) (fuel : Nat) : Option (Nat × List Action) :=
  if env.sigByte = EEPROM_DEVICE_ID then
    match erase_device env.eraseStatus fuel with
    | none => none
    | some (_, eraseTr) =>
      match read_page 0 1 (rxBuf env.checkRx) with
      | (none, _) => none
      | (some dataRead, checkTr) =>
        if dataRead.getD 0 0 ≠ 0xFF then
          some (EXIT_FAILURE, rdidCall :: (eraseTr ++ checkTr))
        else
          match write_all env fuel with
          | none => none
          | some writeTr =>
            some (EXIT_SUCCESS,
              rdidCall :: (eraseTr ++ checkTr ++ writeTr ++ read_all env ++
                [Action.spiWrite [DPD]]))
  else
    some (EXIT_FAILURE, [rdidCall, Action.spiWrite [DPD]])

/-! Trace observation helpers. -/

/-- An action transmitting a chip-erase frame (first transmitted byte `CE`). -/
def isEraseCall : Action → Bool
  | Action.spiWrite (b :: _) => b == CE
  | _ => false

/-- An action transmitting a page-write frame (first transmitted byte `WRITE`). -/
def isWriteCall : Action → Bool
  | Action.spiWrite (b :: _) => b == WRITE
  | _ => false

/-- The opcode (first transmitted byte) of a transport call; `none` for sleeps. -/
def opcodeOf : Action → Option Nat
  | Action.spiWrite (b :: _) => some b
  | Action.spiRW (b :: _) _ => some b
  | _ => none

/-- The opcode sequence of the transport calls of a trace (sleeps dropped). -/
def transportOps (tr : List Action) : List Nat := tr.filterMap opcodeOf

/-- `wren_guarded_from prev ops` holds when along `ops`, every `CE` or
`WRITE` opcode is immediately preceded by `WREN` (with `prev` the opcode
transmitted just before `ops`). -/
def wren_guarded_from (prev : Nat) : List Nat → Bool
  | [] => true
  | op :: rest =>
    ((op != CE && op != WRITE) || prev == WREN) && wren_guarded_from op rest

/-- Every erase or write opcode in the transport-opcode sequence is
immediately preceded by a write-enable opcode (and the sequence does not
start with an erase or write). -/
def wren_guarded (ops : List Nat) : Bool := wren_guarded_from 0 ops

/-- A status poll. -/
def isPoll (a : Action) : Bool := a == pollCall

/-- No two status polls are adjacent in the trace (i.e. something — e.g. a
sleep — separates every pair of successive polls). -/
def noAdjacentPolls : List Action → Bool
  | a :: b :: rest => !(isPoll a && isPoll b) && noAdjacentPolls (b :: rest)
  | _ => true

/-! Basic lemmas about the busy-poll loop. -/

lemma land_one_cases (s : Nat) : s &&& 1 = 0 ∨ s &&& 1 = 1 := by
  have h := Nat.and_one_is_mod s
  omega

lemma busy_poll_reaches_clear (statusSeq : Nat → Nat) :
    ∀ fuel k N, N < fuel → statusSeq (k + N) &&& 1 = 0 →
      ∃ s tr, busy_poll statusSeq k fuel = some (s, tr) ∧ s &&& 1 = 0 := by
  intro fuel
  induction fuel with
  | zero => intro k N h _; omega
  | succ f ih =>
    intro k N hN hclear
    by_cases h0 : statusSeq k &&& 1 = 0
    · exact ⟨statusSeq k, [pollCall], by simp [busy_poll, h0], h0⟩
    · have hNne : N ≠ 0 := by
        intro h
        subst h
        exact h0 hclear
      obtain ⟨M, rfl⟩ := Nat.exists_eq_succ_of_ne_zero hNne
      have hshift : statusSeq (k + 1 + M) &&& 1 = 0 := by
        have harith : k + 1 + M = k + (M + 1) := by omega
        rw [harith]; exact hclear
      obtain ⟨s, tr, heq, hs⟩ := ih (k + 1) M (by omega) hshift
      refine ⟨s, pollCall :: tr, ?_, hs⟩
      simp only [busy_poll]
      rw [if_neg h0, heq]

lemma busy_poll_trace_shape (statusSeq : Nat → Nat) :
    ∀ fuel k s tr, busy_poll statusSeq k fuel = some (s, tr) →
      ∃ n, tr = List.replicate (n + 1) pollCall := by
  intro fuel
  induction fuel with
  | zero => intro k s tr h; simp [busy_poll] at h
  | succ f ih =>
    intro k s tr h
    by_cases h0 : statusSeq k &&& 1 = 0
    · simp [busy_poll, h0] at h
      exact ⟨0, by simp [← h.2]⟩
    · simp only [busy_poll, h0, if_neg] at h
      cases heq : busy_poll statusSeq (k + 1) f with
      | none => rw [heq] at h; simp at h
      | some p =>
        obtain ⟨sf, tr2⟩ := p
        rw [heq] at h
        simp at h
        obtain ⟨n, htr⟩ := ih (k + 1) sf tr2 heq
        refine ⟨n + 1, ?_⟩
        rw [← h.2, htr]
        simp [List.replicate_succ]

/-- Shape of the trace of a completed `erase_device`: write-enable, chip
erase, one fixed sleep, then one or more back-to-back status polls. -/
lemma erase_device_trace_shape (statusSeq : Nat → Nat) (fuel r : Nat)
    (tr : List Action) (h : erase_device statusSeq fuel = some (r, tr)) :
    r = EXIT_SUCCESS ∧
      ∃ n, tr = Action.spiWrite [WREN] :: Action.spiWrite [CE] ::
        Action.sleep EEPROM_ERASE_DELAY :: List.replicate (n + 1) pollCall := by
  unfold erase_device at h
  cases heq : busy_poll statusSeq 0 fuel with
  | none => rw [heq] at h; simp at h
  | some p =>
    obtain ⟨s, polls⟩ := p
    rw [heq] at h
    simp at h
    obtain ⟨n, hn⟩ := busy_poll_trace_shape statusSeq fuel 0 s polls heq
    exact ⟨h.1.symm, n, by rw [← h.2, hn]⟩

/-- Shape of the trace of a completed `write_page` with a legal length:
write-enable, the write frame, one fixed sleep, then back-to-back polls. -/
lemma write_page_trace_shape (page : Nat) (data : List Nat) (len : Nat)
    (statusSeq : Nat → Nat) (fuel r : Nat) (tr : List Action)
    (hlen : len ≤ EEPROM_PAGE_SIZE)
    (h : write_page page data len statusSeq fuel = some (r, tr)) :
    r = EXIT_SUCCESS ∧
      ∃ n, tr = Action.spiWrite [WREN] ::
        Action.spiWrite (writeFrame page data len) ::
        Action.sleep EEPROM_WRITE_DELAY :: List.replicate (n + 1) pollCall := by
  unfold write_page at h
  rw [if_neg (by omega)] at h
  cases heq : busy_poll statusSeq 0 fuel with
  | none => rw [heq] at h; simp at h
  | some p =>
    obtain ⟨s, polls⟩ := p
    rw [heq] at h
    simp at h
    obtain ⟨n, hn⟩ := busy_poll_trace_shape statusSeq fuel 0 s polls heq
    exact ⟨h.1.symm, n, by rw [← h.2, hn]⟩

/-- C1: `write_page` with `len > EEPROM_PAGE_SIZE` returns `EXIT_FAILURE`
and issues no transport call at all — no write enable, no transmission, no
status poll (the trace is empty). -/
theorem write_page_len_guard (page : Nat) (data : List Nat) (len : Nat)
    (statusSeq : Nat → Nat) (fuel : Nat) (h : EEPROM_PAGE_SIZE < len) :
    write_page page data len statusSeq fuel = some (EXIT_FAILURE, []) := by
  unfold write_page
  rw [if_pos h]

/-- Witness for C1 at `len = 129`. -/
theorem write_page_len_guard_witness :
    EEPROM_PAGE_SIZE < 129 ∧
      write_page 0 [] 129 (fun _ => 0) 0 = some (EXIT_FAILURE, []) :=
  ⟨by decide, write_page_len_guard 0 [] 129 (fun _ => 0) 0 (by decide)⟩

/-- C5: if the status register eventually reads with bit 0 clear (at the
N-th poll), then with enough fuel the busy-poll loop terminates with a final
status whose bit 0 is clear, and both `erase_device` and (for any legal
length) `write_page` complete. -/
theorem busy_poll_terminates (statusSeq : Nat → Nat) (N fuel : Nat)
    (hclear : statusSeq N &&& 1 = 0) (hfuel : N < fuel) :
    (∃ s tr, busy_poll statusSeq 0 fuel = some (s, tr) ∧ s &&& 1 = 0) ∧
    (∃ r tr, erase_device statusSeq fuel = some (r, tr)) ∧
    (∀ page data len, len ≤ EEPROM_PAGE_SIZE →
      ∃ r tr, write_page page data len statusSeq fuel = some (r, tr)) := by
  obtain ⟨s, tr, heq, hs⟩ :=
    busy_poll_reaches_clear statusSeq fuel 0 N hfuel (by simpa using hclear)
  refine ⟨⟨s, tr, heq, hs⟩, ?_, ?_⟩
  · refine ⟨EXIT_SUCCESS,
      Action.spiWrite [WREN] :: Action.spiWrite [CE] ::
        Action.sleep EEPROM_ERASE_DELAY :: tr, ?_⟩
    unfold erase_device
    rw [heq]
  · intro page data len hlen
    refine ⟨EXIT_SUCCESS,
      Action.spiWrite [WREN] :: Action.spiWrite (writeFrame page data len) ::
        Action.sleep EEPROM_WRITE_DELAY :: tr, ?_⟩
    unfold write_page
    rw [if_neg (by omega), heq]

/-- Witness for C5: bit 0 clears at the third poll. -/
theorem busy_poll_terminates_witness :
    ((fun k => if k < 2 then 1 else 0) 2) &&& 1 = 0 ∧ (2 : Nat) < 3 ∧
    ((∃ s tr, busy_poll (fun k => if k < 2 then 1 else 0) 0 3 = some (s, tr) ∧
        s &&& 1 = 0) ∧
      (∃ r tr, erase_device (fun k => if k < 2 then 1 else 0) 3 = some (r, tr)) ∧
      (∀ page data len, len ≤ EEPROM_PAGE_SIZE →
        ∃ r tr,
          write_page page data len (fun k => if k < 2 then 1 else 0) 3 =
            some (r, tr))) :=
  ⟨by decide, by decide,
    busy_poll_terminates (fun k => if k < 2 then 1 else 0) 2 3 (by decide)
      (by decide)⟩

/-- C10: the byte offset is the page index times 128 reduced mod 2^16; the
two transmitted address bytes encode exactly that value, so any page index
aliases the page at index mod 512 — `read_page` emits an identical frame for
`p` and `p % EEPROM_NUM_PAGES`. -/
theorem page_offset_wraps_mod_2_16 (p : Nat) :
    pageOffset16 p = p * EEPROM_PAGE_SIZE % 2 ^ 16 ∧
    addrHi p * 256 + addrLo p = p * EEPROM_PAGE_SIZE % 2 ^ 16 ∧
    pageOffset16 p = pageOffset16 (p % EEPROM_NUM_PAGES) ∧
    addrHi p = addrHi (p % EEPROM_NUM_PAGES) ∧
    addrLo p = addrLo (p % EEPROM_NUM_PAGES) ∧
    (∀ len rx, (read_page p len rx).2 = (read_page (p % EEPROM_NUM_PAGES) len rx).2) := by
  have h16 : (2 : Nat) ^ 16 = 65536 := by norm_num
  have halias : pageOffset16 p = pageOffset16 (p % EEPROM_NUM_PAGES) := by
    simp only [pageOffset16, EEPROM_PAGE_SIZE, EEPROM_NUM_PAGES, EEPROM_SIZE]
    omega
  have hhi : addrHi p = addrHi (p % EEPROM_NUM_PAGES) := by
    simp only [addrHi, halias]
  have hlo : addrLo p = addrLo (p % EEPROM_NUM_PAGES) := by
    simp only [addrLo, halias]
  refine ⟨by simp [pageOffset16, h16], ?_, halias, hhi, hlo, ?_⟩
  · rw [h16]
    simp only [addrHi, addrLo, pageOffset16]
    omega
  · intro len rx
    simp [read_page, hhi, hlo]

/-- A device that answers busy to the first poll and not-busy afterwards. -/
def cexStatusSeq : Nat → Nat := fun k => if k = 0 then 1 else 0

/-- C4 counterexample: with a device that is busy at the first poll, the
erase busy-wait performs its two status polls back to back — the only sleep
in the whole trace is the single fixed delay issued before the first poll,
so no delay is slept between the two successive polls even though the busy
bit was set at the first. -/
theorem busy_poll_no_delay_between_polls :
    erase_device cexStatusSeq 2 =
      some (EXIT_SUCCESS,
        [Action.spiWrite [WREN], Action.spiWrite [CE],
          Action.sleep EEPROM_ERASE_DELAY, pollCall, pollCall]) ∧
    cexStatusSeq 0 &&& 1 = 1 ∧
    noAdjacentPolls
      [Action.spiWrite [WREN], Action.spiWrite [CE],
        Action.sleep EEPROM_ERASE_DELAY, pollCall, pollCall] = false := by
  refine ⟨rfl, rfl, rfl⟩

/-- C4 amended: the fixed delay is slept exactly once, after transmitting
the erase (resp. write) command and before the first status poll; the
status register is then polled repeatedly with no delay between successive
polls until bit 0 is clear. -/
theorem busy_wait_single_delay_policy :
    (∀ statusSeq fuel r tr, erase_device statusSeq fuel = some (r, tr) →
      ∃ n, tr = Action.spiWrite [WREN] :: Action.spiWrite [CE] ::
        Action.sleep EEPROM_ERASE_DELAY :: List.replicate (n + 1) pollCall) ∧
    (∀ page data len statusSeq fuel r tr, len ≤ EEPROM_PAGE_SIZE →
      write_page page data len statusSeq fuel = some (r, tr) →
      ∃ n, tr = Action.spiWrite [WREN] ::
        Action.spiWrite (writeFrame page data len) ::
        Action.sleep EEPROM_WRITE_DELAY :: List.replicate (n + 1) pollCall) := by
  constructor
  · intro statusSeq fuel r tr h
    exact (erase_device_trace_shape statusSeq fuel r tr h).2
  · intro page data len statusSeq fuel r tr hlen h
    exact (write_page_trace_shape page data len statusSeq fuel r tr hlen h).2

/-- Witness for the amended C4 at a concrete never-busy run. -/
theorem busy_wait_single_delay_policy_witness :
    ∃ n, [Action.spiWrite [WREN], Action.spiWrite [CE],
        Action.sleep EEPROM_ERASE_DELAY, pollCall] =
      Action.spiWrite [WREN] :: Action.spiWrite [CE] ::
        Action.sleep EEPROM_ERASE_DELAY :: List.replicate (n + 1) pollCall :=
  busy_wait_single_delay_policy.1 (fun _ => 0) 1 EXIT_SUCCESS
    [Action.spiWrite [WREN], Action.spiWrite [CE],
      Action.sleep EEPROM_ERASE_DELAY, pollCall] rfl

/-- C6: for every page index below `EEPROM_NUM_PAGES = 512`, the byte
offset `p * 128` plus a full page fits in the 65536-byte capacity, and both
`write_page` and `read_page` transmit exactly that offset as two big-endian
bytes (high byte, then low byte) immediately after the opcode. -/
theorem page_offset_in_range_and_encoded (p : Nat) (hp : p < EEPROM_NUM_PAGES) :
    p * EEPROM_PAGE_SIZE + EEPROM_PAGE_SIZE ≤ EEPROM_SIZE ∧
    addrHi p = p * EEPROM_PAGE_SIZE / 256 ∧
    addrLo p = p * EEPROM_PAGE_SIZE % 256 ∧
    addrHi p * 256 + addrLo p = p * EEPROM_PAGE_SIZE ∧
    (∀ data len statusSeq fuel r tr, len ≤ EEPROM_PAGE_SIZE →
      write_page p data len statusSeq fuel = some (r, tr) →
      ∃ payload, tr[1]? =
        some (Action.spiWrite (WRITE :: addrHi p :: addrLo p :: payload))) ∧
    (∀ len rx, (read_page p len rx).2 =
      [Action.spiRW [READ, addrHi p, addrLo p] (len + 3)]) := by
  have hp512 : p < 512 := by
    simpa [EEPROM_NUM_PAGES, EEPROM_SIZE, EEPROM_PAGE_SIZE] using hp
  have hoff : pageOffset16 p = p * EEPROM_PAGE_SIZE := by
    simp only [pageOffset16, EEPROM_PAGE_SIZE]
    omega
  refine ⟨?_, ?_, ?_, ?_, ?_, ?_⟩
  · simp only [EEPROM_PAGE_SIZE, EEPROM_SIZE]
    omega
  · simp only [addrHi, hoff]
  · simp only [addrLo, hoff]
  · simp only [addrHi, addrLo, hoff]
    omega
  · intro data len statusSeq fuel r tr hlen h
    obtain ⟨-, n, htr⟩ := write_page_trace_shape p data len statusSeq fuel r tr hlen h
    exact ⟨payloadBytes data len, by rw [htr]; rfl⟩
  · intro len rx
    rfl

/-- Witness for C6 at the last page, `p = 511`. -/
theorem page_offset_in_range_and_encoded_witness :
    (511 : Nat) < EEPROM_NUM_PAGES ∧
    (511 * EEPROM_PAGE_SIZE + EEPROM_PAGE_SIZE ≤ EEPROM_SIZE ∧
      addrHi 511 = 511 * EEPROM_PAGE_SIZE / 256 ∧
      addrLo 511 = 511 * EEPROM_PAGE_SIZE % 256 ∧
      addrHi 511 * 256 + addrLo 511 = 511 * EEPROM_PAGE_SIZE ∧
      (∀ data len statusSeq fuel r tr, len ≤ EEPROM_PAGE_SIZE →
        write_page 511 data len statusSeq fuel = some (r, tr) →
        ∃ payload, tr[1]? =
          some (Action.spiWrite (WRITE :: addrHi 511 :: addrLo 511 :: payload))) ∧
      (∀ len rx, (read_page 511 len rx).2 =
        [Action.spiRW [READ, addrHi 511, addrLo 511] (len + 3)])) :=
  ⟨by decide, page_offset_in_range_and_encoded 511 (by decide)⟩

/-! Receive-buffer lemmas. -/

lemma rxBuf_length (f : Nat → Nat) : (rxBuf f).length = rxBufSize := by
  simp [rxBuf]

lemma rxBuf_getElem (f : Nat → Nat) (k : Nat) (hk : k < rxBufSize) :
    (rxBuf f)[k]? = some (f k) := by
  simp [rxBuf, List.getElem?_map, List.getElem?_range, hk]

lemma copy_loop_in_bounds (rx : List Nat) :
    ∀ rem i, i + rem + 3 ≤ rx.length → ∃ bs, copy_loop rx i rem = some bs := by
  intro rem
  induction rem with
  | zero => intro i _; exact ⟨[], rfl⟩
  | succ m ih =>
    intro i hb
    have hidx : i + 3 < rx.length := by omega
    have hbEq : rx[i + 3]? = some rx[i + 3] := List.getElem?_eq_getElem hidx
    obtain ⟨rest, hrest⟩ := ih (i + 1) (by omega)
    exact ⟨rx[i + 3] :: rest, by simp [copy_loop, hbEq, hrest]⟩

lemma copy_loop_oob (rx : List Nat) :
    ∀ rem i, 1 ≤ rem → rx.length ≤ i + rem + 2 → copy_loop rx i rem = none := by
  intro rem
  induction rem with
  | zero => intro i h _; omega
  | succ m ih =>
    intro i _ hb
    by_cases hidx : i + 3 < rx.length
    · have hm : 1 ≤ m := by omega
      have hrec := ih (i + 1) hm (by omega)
      have hbEq : rx[i + 3]? = some rx[i + 3] := List.getElem?_eq_getElem hidx
      simp [copy_loop, hbEq, hrec]
    · have hbEq : rx[i + 3]? = none := by
        apply List.getElem?_eq_none
        omega
      simp [copy_loop, hbEq]

/-- C9: `read_page` performs no validation of `len`.  For `len = 129 > 128`
its copy loop indexes the 131-byte receive buffer out of bounds (the
`Option`-valued indexing returns `none`), whatever the buffer holds; the
copy stays in bounds exactly under the unchecked precondition
`len ≤ EEPROM_PAGE_SIZE`. -/
theorem read_page_no_len_guard :
    (∃ len, EEPROM_PAGE_SIZE < len ∧
      ∀ f, (read_page 0 len (rxBuf f)).1 = none) ∧
    (∀ p len rx, len ≤ EEPROM_PAGE_SIZE → rx.length = rxBufSize →
      ∃ bs, (read_page p len rx).1 = some bs) := by
  have hsize : rxBufSize = 131 := rfl
  constructor
  · refine ⟨129, by decide, ?_⟩
    intro f
    show copyFromRx (rxBuf f) 129 = none
    apply copy_loop_oob
    · omega
    · rw [rxBuf_length, hsize]
  · intro p len rx hlen hrx
    have hlen128 : len ≤ 128 := by
      simpa [EEPROM_PAGE_SIZE] using hlen
    obtain ⟨bs, h⟩ := copy_loop_in_bounds rx len 0 (by omega)
    exact ⟨bs, h⟩

/-- Witness for C9: a 128-byte copy out of the 131-byte buffer succeeds. -/
theorem read_page_no_len_guard_witness :
    (128 : Nat) ≤ EEPROM_PAGE_SIZE ∧
    (rxBuf (fun _ => 0)).length = rxBufSize ∧
    ∃ bs, (read_page 0 128 (rxBuf (fun _ => 0))).1 = some bs :=
  ⟨by decide, rxBuf_length (fun _ => 0),
    read_page_no_len_guard.2 0 128 (rxBuf (fun _ => 0)) (by decide)
      (rxBuf_length (fun _ => 0))⟩

/-- Evaluation of the post-erase verification read: one byte of page 0.
`tx` carries `READ` and the big-endian encoding of offset 0; the byte stored
into `data_read[0]` is `rx[3]`. -/
lemma check_read_eval (f : Nat → Nat) :
    read_page 0 1 (rxBuf f) = (some [f 3], [Action.spiRW [READ, 0, 0] 4]) := by
  have h3 : (rxBuf f)[3]? = some (f 3) := rxBuf_getElem f 3 (by decide)
  unfold read_page copyFromRx
  rw [show copy_loop (rxBuf f) 0 1 = some [f 3] by simp [copy_loop, h3]]
  rfl

/-- C2: whenever the signature byte differs from `EEPROM_DEVICE_ID = 0x29`,
`main` exits with `EXIT_FAILURE` and its trace — exactly the RDID exchange
followed by the deep-power-down frame — contains no chip-erase and no
page-write transmission. -/
theorem wrong_device_aborts (env : Env) (fuel : Nat)
    (h : env.sigByte ≠ EEPROM_DEVICE_ID) :
    main_run env fuel =
      some (EXIT_FAILURE, [rdidCall, Action.spiWrite [DPD]]) ∧
    ∀ a ∈ [rdidCall, Action.spiWrite [DPD]],
      isEraseCall a = false ∧ isWriteCall a = false := by
  constructor
  · unfold main_run
    rw [if_neg h]
  · decide

/-- An environment whose device answers signature 0 (not a 25LC512). -/
def envWrong : Env :=
  ⟨0, fun _ => 0, fun _ _ => 0, fun _ => 0, fun _ _ => 0⟩

/-- Witness for C2. -/
theorem wrong_device_aborts_witness :
    envWrong.sigByte ≠ EEPROM_DEVICE_ID ∧
    (main_run envWrong 1 =
        some (EXIT_FAILURE, [rdidCall, Action.spiWrite [DPD]]) ∧
      ∀ a ∈ [rdidCall, Action.spiWrite [DPD]],
        isEraseCall a = false ∧ isWriteCall a = false) :=
  ⟨by decide, wrong_device_aborts envWrong 1 (by decide)⟩

/-- With any positive fuel and a device that answers not-busy to every
write poll, every page write completes, hence so does the page loop. -/
lemma write_all_aux_total (env : Env) (fuel : Nat) (hfuel : 1 ≤ fuel)
    (hstat : ∀ p k, env.writeStatus p k &&& 1 = 0) :
    ∀ ps, ∃ tr, write_all_aux env fuel ps = some tr := by
  intro ps
  induction ps with
  | nil => exact ⟨[], rfl⟩
  | cons p ps ih =>
    obtain ⟨tr, htr⟩ := ih
    obtain ⟨s, ptr, hp, -⟩ :=
      busy_poll_reaches_clear (env.writeStatus p) fuel 0 0 (by omega)
        (by simpa using hstat p 0)
    have hw : write_page p mainData EEPROM_PAGE_SIZE (env.writeStatus p) fuel =
        some (EXIT_SUCCESS,
          Action.spiWrite [WREN] ::
            Action.spiWrite (writeFrame p mainData EEPROM_PAGE_SIZE) ::
            Action.sleep EEPROM_WRITE_DELAY :: ptr) := by
      unfold write_page
      rw [if_neg (by omega), hp]
    refine ⟨(Action.spiWrite [WREN] ::
      Action.spiWrite (writeFrame p mainData EEPROM_PAGE_SIZE) ::
      Action.sleep EEPROM_WRITE_DELAY :: ptr) ++ tr, ?_⟩
    simp [write_all_aux, hw, htr]

/-- C3: when the device identifies as a 25LC512 and the post-erase check of
page 0 byte 0 reads 0xFF, `main` exits with `EXIT_SUCCESS` for every
possible readback environment (`env.readRx` is universally quantified): the
per-byte miscompare check never influences the exit status. -/
theorem readback_never_affects_exit (env : Env) (fuel : Nat)
    (hid : env.sigByte = EEPROM_DEVICE_ID)
    (hchk : env.checkRx 3 = 0xFF)
    (he : ∃ r etr, erase_device env.eraseStatus fuel = some (r, etr))
    (hw : ∃ wtr, write_all env fuel = some wtr) :
    ∃ tr, main_run env fuel = some (EXIT_SUCCESS, tr) := by
  obtain ⟨r, etr, heq⟩ := he
  obtain ⟨wtr, hweq⟩ := hw
  refine ⟨rdidCall :: (etr ++ [Action.spiRW [READ, 0, 0] 4] ++ wtr ++
    read_all env ++ [Action.spiWrite [DPD]]), ?_⟩
  unfold main_run
  rw [if_pos hid, heq, check_read_eval env.checkRx]
  simp [hchk, hweq]

/-- A correctly identifying, never-busy device whose memory reads erased. -/
def envOk : Env :=
  ⟨EEPROM_DEVICE_ID, fun _ => 0, fun _ _ => 0, fun _ => 0xFF, fun _ _ => 0⟩

/-- Witness for C3. -/
theorem readback_never_affects_exit_witness :
    envOk.sigByte = EEPROM_DEVICE_ID ∧ envOk.checkRx 3 = 0xFF ∧
    ∃ tr, main_run envOk 1 = some (EXIT_SUCCESS, tr) :=
  ⟨rfl, rfl,
    readback_never_affects_exit envOk 1 rfl rfl
      ⟨EXIT_SUCCESS, _, rfl⟩
      (write_all_aux_total envOk 1 (by decide) (fun _ _ => Nat.zero_and 1)
        (List.range EEPROM_NUM_PAGES))⟩

/-- C7: with a matching device ID and a completed erase, if page 0 byte 0
does not read 0xFF then `main` exits with `EXIT_FAILURE`; the last transport
call of the run is the one-byte verification read of page 0 (a 4-byte READ
transfer of offset 0) and no page-write frame was ever transmitted. -/
theorem erase_check_fatal (env : Env) (fuel : Nat)
    (hid : env.sigByte = EEPROM_DEVICE_ID)
    (he : ∃ r etr, erase_device env.eraseStatus fuel = some (r, etr))
    (hb : env.checkRx 3 ≠ 0xFF) :
    ∃ tr, main_run env fuel = some (EXIT_FAILURE, tr) ∧
      tr.getLast? = some (Action.spiRW [READ, 0, 0] 4) ∧
      ∀ a ∈ tr, isWriteCall a = false := by
  obtain ⟨r, etr, heq⟩ := he
  obtain ⟨-, n, hshape⟩ := erase_device_trace_shape env.eraseStatus fuel r etr heq
  refine ⟨rdidCall :: (etr ++ [Action.spiRW [READ, 0, 0] 4]), ?_, ?_, ?_⟩
  · unfold main_run
    rw [if_pos hid, heq, check_read_eval env.checkRx]
    simp [hb]
  · rw [show rdidCall :: (etr ++ [Action.spiRW [READ, 0, 0] 4]) =
      (rdidCall :: etr) ++ [Action.spiRW [READ, 0, 0] 4] from rfl,
      List.getLast?_append_cons]
    rfl
  · intro a ha
    simp only [List.mem_cons, List.mem_append, List.mem_singleton] at ha
    rcases ha with h1 | h2 | h3
    · subst h1; rfl
    · rw [hshape] at h2
      simp only [List.mem_cons] at h2
      rcases h2 with h | h | h | h
      · subst h; rfl
      · subst h; rfl
      · subst h; rfl
      · rw [List.eq_of_mem_replicate h]; rfl
    · rcases h3 with h3 | h3
      · subst h3; rfl
      · exact absurd h3 (List.not_mem_nil a)

/-- A correctly identifying, never-busy device whose page 0 byte 0 still
reads 0x00 after the erase. -/
def envBadCheck : Env :=
  ⟨EEPROM_DEVICE_ID, fun _ => 0, fun _ _ => 0, fun _ => 0, fun _ _ => 0⟩

/-- Witness for C7. -/
theorem erase_check_fatal_witness :
    envBadCheck.sigByte = EEPROM_DEVICE_ID ∧ envBadCheck.checkRx 3 ≠ 0xFF ∧
    ∃ tr, main_run envBadCheck 1 = some (EXIT_FAILURE, tr) ∧
      tr.getLast? = some (Action.spiRW [READ, 0, 0] 4) ∧
      ∀ a ∈ tr, isWriteCall a = false :=
  ⟨rfl, by decide,
    erase_check_fatal envBadCheck 1 rfl ⟨EXIT_SUCCESS, _, rfl⟩ (by decide)⟩

/-! Machinery for the write-enable discipline (C8). -/

/-- Last element of a list, with default. -/
def lastD (d : Nat) : List Nat → Nat
  | [] => d
  | a :: rest => lastD a rest

lemma wg_from_append (l1 : List Nat) : ∀ (prev : Nat) (l2 : List Nat),
    wren_guarded_from prev (l1 ++ l2) =
      (wren_guarded_from prev l1 && wren_guarded_from (lastD prev l1) l2) := by
  induction l1 with
  | nil => intro prev l2; simp [wren_guarded_from, lastD]
  | cons op rest ih =>
    intro prev l2
    simp [wren_guarded_from, lastD, ih op l2, Bool.and_assoc]

/-- A segment of opcodes that is write-enable guarded whatever opcode
precedes it (so it may be placed anywhere in a trace). -/
def safeSeg (l : List Nat) : Prop :=
  ∀ prev, wren_guarded_from prev l = true

lemma safeSeg_nil : safeSeg [] := fun _ => rfl

lemma safeSeg_append (l1 l2 : List Nat) (h1 : safeSeg l1) (h2 : safeSeg l2) :
    safeSeg (l1 ++ l2) := by
  intro prev
  rw [wg_from_append, h1 prev, h2 (lastD prev l1)]
  rfl

lemma safeSeg_of_no_cw : ∀ l : List Nat,
    (∀ op ∈ l, op ≠ CE ∧ op ≠ WRITE) → safeSeg l := by
  intro l
  induction l with
  | nil => intro _; exact safeSeg_nil
  | cons op rest ih =>
    intro h prev
    have hop := h op (List.mem_cons_self op rest)
    have hcond : (op != CE && op != WRITE) = true := by
      simp [bne_iff_ne, hop.1, hop.2]
    have hrest := ih (fun x hx => h x (List.mem_cons_of_mem op hx)) op
    simp [wren_guarded_from, hcond, hrest]

lemma transportOps_append (l1 l2 : List Action) :
    transportOps (l1 ++ l2) = transportOps l1 ++ transportOps l2 := by
  simp [transportOps, List.filterMap_append]

lemma transportOps_replicate_poll (n : Nat) :
    transportOps (List.replicate n pollCall) = List.replicate n RDSR := by
  induction n with
  | zero => rfl
  | succ m ih =>
    simp only [List.replicate_succ]
    rw [show transportOps (pollCall :: List.replicate m pollCall) =
      RDSR :: transportOps (List.replicate m pollCall) from rfl, ih]

lemma polls_ops_safe (n : Nat) : safeSeg (List.replicate n RDSR) := by
  apply safeSeg_of_no_cw
  intro op hop
  rw [List.eq_of_mem_replicate hop]
  exact ⟨by decide, by decide⟩

lemma erase_ops_safe (n : Nat) :
    safeSeg (WREN :: CE :: List.replicate n RDSR) := by
  intro prev
  simp only [wren_guarded_from]
  rw [polls_ops_safe n CE]
  simp [WREN, CE, WRITE]

lemma write_ops_safe (n : Nat) :
    safeSeg (WREN :: WRITE :: List.replicate n RDSR) := by
  intro prev
  simp only [wren_guarded_from]
  rw [polls_ops_safe n WRITE]
  simp [WREN, CE, WRITE]

lemma erase_trace_ops (statusSeq : Nat → Nat) (fuel r : Nat) (tr : List Action)
    (h : erase_device statusSeq fuel = some (r, tr)) :
    ∃ n, transportOps tr = WREN :: CE :: List.replicate (n + 1) RDSR := by
  obtain ⟨-, n, hshape⟩ := erase_device_trace_shape statusSeq fuel r tr h
  refine ⟨n, ?_⟩
  rw [hshape]
  rw [show transportOps (Action.spiWrite [WREN] :: Action.spiWrite [CE] ::
      Action.sleep EEPROM_ERASE_DELAY :: List.replicate (n + 1) pollCall) =
    WREN :: CE :: transportOps (List.replicate (n + 1) pollCall) from rfl,
    transportOps_replicate_poll]

lemma write_trace_ops (page : Nat) (data : List Nat) (len : Nat)
    (statusSeq : Nat → Nat) (fuel r : Nat) (tr : List Action)
    (hlen : len ≤ EEPROM_PAGE_SIZE)
    (h : write_page page data len statusSeq fuel = some (r, tr)) :
    ∃ n, transportOps tr = WREN :: WRITE :: List.replicate (n + 1) RDSR := by
  obtain ⟨-, n, hshape⟩ :=
    write_page_trace_shape page data len statusSeq fuel r tr hlen h
  refine ⟨n, ?_⟩
  rw [hshape]
  rw [show transportOps (Action.spiWrite [WREN] ::
      Action.spiWrite (writeFrame page data len) ::
      Action.sleep EEPROM_WRITE_DELAY :: List.replicate (n + 1) pollCall) =
    WREN :: WRITE :: transportOps (List.replicate (n + 1) pollCall) from rfl,
    transportOps_replicate_poll]

lemma write_all_aux_ops_safe (env : Env) (fuel : Nat) :
    ∀ ps tr, write_all_aux env fuel ps = some tr →
      safeSeg (transportOps tr) := by
  intro ps
  induction ps with
  | nil =>
    intro tr h
    have htr : tr = [] := by
      simpa [write_all_aux] using h.symm
    rw [htr]
    exact safeSeg_nil
  | cons p ps ih =>
    intro tr h
    unfold write_all_aux at h
    cases hw : write_page p mainData EEPROM_PAGE_SIZE (env.writeStatus p) fuel with
    | none => rw [hw] at h; simp at h
    | some pr =>
      obtain ⟨r, wtr⟩ := pr
      rw [hw] at h
      cases hrest : write_all_aux env fuel ps with
      | none => rw [hrest] at h; simp at h
      | some rest =>
        rw [hrest] at h
        simp at h
        obtain ⟨n, hops⟩ := write_trace_ops p mainData EEPROM_PAGE_SIZE
          (env.writeStatus p) fuel r wtr (le_refl _) hw
        rw [← h, transportOps_append, hops]
        exact safeSeg_append _ _ (write_ops_safe (n + 1)) (ih rest hrest)

lemma read_all_aux_ops_safe (env : Env) :
    ∀ ps, safeSeg (transportOps (read_all_aux env ps)) := by
  intro ps
  induction ps with
  | nil => exact safeSeg_nil
  | cons p ps ih =>
    rw [show read_all_aux env (p :: ps) =
      (read_page p EEPROM_PAGE_SIZE (rxBuf (env.readRx p))).2 ++
        read_all_aux env ps from rfl, transportOps_append]
    apply safeSeg_append _ _ _ ih
    apply safeSeg_of_no_cw
    intro op hop
    have hopR : op = READ := by
      simpa [read_page, transportOps, opcodeOf] using hop
    rw [hopR]
    exact ⟨by decide, by decide⟩

lemma wren_guarded_cons_safe (op : Nat) (ops : List Nat)
    (h1 : (op != CE && op != WRITE) = true) (h2 : safeSeg ops) :
    wren_guarded (op :: ops) = true := by
  unfold wren_guarded
  simp only [wren_guarded_from]
  rw [h1, h2 op]
  rfl

/-- C8: along the transport-call trace of any run of `main`, every chip-erase
frame (opcode 0xC7) and every page-write frame (opcode 0x02) is immediately
preceded by a write-enable frame (opcode 0x06): the latch is reissued before
each individual erase and each individual page write. -/
theorem wren_precedes_destructive_ops (env : Env) (fuel c : Nat)
    (tr : List Action) (h : main_run env fuel = some (c, tr)) :
    wren_guarded (transportOps tr) = true := by
  unfold main_run at h
  by_cases hid : env.sigByte = EEPROM_DEVICE_ID
  · rw [if_pos hid] at h
    cases herase : erase_device env.eraseStatus fuel with
    | none => rw [herase] at h; simp at h
    | some pr =>
      obtain ⟨r, etr⟩ := pr
      rw [herase, check_read_eval env.checkRx] at h
      obtain ⟨n, hops⟩ := erase_trace_ops env.eraseStatus fuel r etr herase
      simp only [List.getD, List.getElem?_cons_zero, Option.getD_some] at h
      by_cases hchk : env.checkRx 3 = 0xFF
      · rw [if_neg (by simp [hchk])] at h
        cases hwa : write_all env fuel with
        | none => rw [hwa] at h; simp at h
        | some wtr =>
          rw [hwa] at h
          simp only [Option.some.injEq, Prod.mk.injEq] at h
          obtain ⟨-, htr⟩ := h
          rw [← htr]
          rw [show transportOps (rdidCall ::
              (etr ++ [Action.spiRW [READ, 0, 0] 4] ++ wtr ++ read_all env ++
                [Action.spiWrite [DPD]])) =
            RDID :: transportOps
              (etr ++ [Action.spiRW [READ, 0, 0] 4] ++ wtr ++ read_all env ++
                [Action.spiWrite [DPD]]) from rfl]
          apply wren_guarded_cons_safe _ _ (by decide)
          rw [transportOps_append, transportOps_append, transportOps_append,
            transportOps_append]
          apply safeSeg_append
          apply safeSeg_append
          apply safeSeg_append
          apply safeSeg_append
          · rw [hops]
            exact erase_ops_safe (n + 1)
          · apply safeSeg_of_no_cw
            intro op hop
            have hopR : op = READ := by
              simpa [transportOps, opcodeOf] using hop
            rw [hopR]
            exact ⟨by decide, by decide⟩
          · exact write_all_aux_ops_safe env fuel _ wtr hwa
          · exact read_all_aux_ops_safe env _
          · apply safeSeg_of_no_cw
            intro op hop
            have hopD : op = DPD := by
              simpa [transportOps, opcodeOf] using hop
            rw [hopD]
            exact ⟨by decide, by decide⟩
      · rw [if_pos (by simpa using hchk)] at h
        simp only [Option.some.injEq, Prod.mk.injEq] at h
        obtain ⟨-, htr⟩ := h
        rw [← htr]
        rw [show transportOps (rdidCall ::
            (etr ++ [Action.spiRW [READ, 0, 0] 4])) =
          RDID :: transportOps (etr ++ [Action.spiRW [READ, 0, 0] 4]) from rfl]
        apply wren_guarded_cons_safe _ _ (by decide)
        rw [transportOps_append]
        apply safeSeg_append
        · rw [hops]
          exact erase_ops_safe (n + 1)
        · apply safeSeg_of_no_cw
          intro op hop
          have hopR : op = READ := by
            simpa [transportOps, opcodeOf] using hop
          rw [hopR]
          exact ⟨by decide, by decide⟩
  · rw [if_neg hid] at h
    simp only [Option.some.injEq, Prod.mk.injEq] at h
    obtain ⟨-, htr⟩ := h
    rw [← htr]
    decide

/-- Witness for C8: the erase-verification-failure run of `main`. -/
theorem wren_precedes_destructive_ops_witness :
    wren_guarded (transportOps
      [rdidCall, Action.spiWrite [WREN], Action.spiWrite [CE],
        Action.sleep EEPROM_ERASE_DELAY, pollCall,
        Action.spiRW [READ, 0, 0] 4]) = true :=
  wren_precedes_destructive_ops envBadCheck 1 EXIT_FAILURE
    [rdidCall, Action.spiWrite [WREN], Action.spiWrite [CE],
      Action.sleep EEPROM_ERASE_DELAY, pollCall, Action.spiRW [READ, 0, 0] 4]
    (by decide)

end Spi25LC512
